import Mathlib

set_option maxRecDepth 8000

/-!
Shallow embedding of the mruby RiteVM interpreter core (`src/vm.c`).

The development models, directly from the C source:
  * the tagged value cell `mrb_value`,
  * the operand stack with its growth policy (`stack_extend`),
  * call-info frames and `cipush`,
  * heap environments (`REnv`) with the return-time promotion performed by
    `OP_RETURN`,
  * the upvalue accessors `uvenv` / `uvget` / `uvset`,
  * the strict-arity check of `OP_ENTER` together with `argnum_error`,
  * the `method_missing` call rewriting of `OP_SEND`,
  * and a small-step interpreter over the opcode subset exercised by the
    claims (`NOP MOVE LOADI LOADNIL JMP ONERR RESCUE POPERR RAISE EPUSH EPOP
    SEND TAILCALL RETURN STOP`), including the `L_RAISE` unwinding loop and
    the ensure-call machinery.

Pointers into the C arrays are represented as offsets from the array base, so
reallocation is a pure operation on lists. Host callbacks (method search,
ensure-body execution) are parameters of the machine.
-/

namespace Mruby

/-- A tagged VM value (`mrb_value`): nil, the two booleans, a fixnum, an
interned symbol, a heap object reference, or an array (arrays appear in the
core as packed argument lists). A zero-initialised cell
(`tt = MRB_TT_FALSE, value.p = 0`) is nil. -/
inductive Val where
  | nil : Val
  | tru : Val
  | fls : Val
  | intv : Int → Val
  | symv : Nat → Val
  | obj : Nat → Val
  | ary : List Val → Val

/-- The operand stack: the backing buffer `stbase .. stend` (its length is the
capacity) together with the current register-base offset
`mrb->stack - mrb->stbase`. -/
structure OStack where
  buf : List Val
  off : Nat

/-- `memset(p + start, 0, n * sizeof(mrb_value))`: zero the slots
`[start, start+n)` of a buffer; a zeroed `mrb_value` reads back as nil. -/
def zfill (buf : List Val) (start n : Nat) : List Val :=
  (List.range buf.length).map fun i =>
    if start ≤ i ∧ i < start + n then Val.nil else buf.getD i Val.nil

/-- The reallocation block of `stack_extend` (vm.c:49-60).  If the required
top `stack + room` exceeds `stend`, the capacity is doubled when
`room ≤ size` and grown by `room` otherwise, and `mrb->stack` is re-derived
at the old offset from the new base.  The cells a realloc adds beyond the old
size have unspecified contents in C; the model fills them with nil. -/
def stack_grow (s : OStack) (room : Nat) : OStack :=
  if s.buf.length < s.off + room then
    let size2 := if room ≤ s.buf.length then s.buf.length * 2 else s.buf.length + room
    OStack.mk (s.buf ++ List.replicate (size2 - s.buf.length) Val.nil) s.off
  else s

/-- `stack_extend` (vm.c:44-64): grow if needed, then, when `room > keep`,
zero the slots `[keep, room)` of the current window. -/
def stack_extend (s : OStack) (room keep : Nat) : OStack :=
  let s1 := stack_grow s room
  if keep < room then OStack.mk (zfill s1.buf (s1.off + keep) (room - keep)) s1.off
  else s1

theorem zfill_length (buf : List Val) (start n : Nat) :
    (zfill buf start n).length = buf.length := by
  simp [zfill]

theorem zfill_getD (buf : List Val) (start n i : Nat) :
    (zfill buf start n).getD i Val.nil =
      if i < buf.length then
        (if start ≤ i ∧ i < start + n then Val.nil else buf.getD i Val.nil)
      else Val.nil := by
  simp only [zfill, List.getD_eq_getElem?_getD, List.getElem?_map, List.getElem?_range]
  by_cases h : i < buf.length
  · simp [h, List.getD_eq_getElem?_getD]
  · rw [List.getElem?_eq_none (by simpa using h)]
    simp [h]

theorem stack_grow_off (s : OStack) (room : Nat) :
    (stack_grow s room).off = s.off := by
  unfold stack_grow
  split <;> rfl

theorem stack_grow_length (s : OStack) (room : Nat) :
    (stack_grow s room).buf.length =
      if s.off + room ≤ s.buf.length then s.buf.length
      else if room ≤ s.buf.length then s.buf.length * 2 else s.buf.length + room := by
  unfold stack_grow
  split_ifs <;> (try simp only [List.length_append, List.length_replicate]) <;> omega

theorem stack_grow_length_ge (s : OStack) (room : Nat) :
    s.buf.length ≤ (stack_grow s room).buf.length := by
  rw [stack_grow_length]
  split_ifs <;> omega

theorem stack_extend_off (s : OStack) (room keep : Nat) :
    (stack_extend s room keep).off = s.off := by
  unfold stack_extend
  split
  · exact stack_grow_off s room
  · exact stack_grow_off s room

theorem append_nil_getD (buf : List Val) (m i : Nat) :
    (buf ++ List.replicate m Val.nil).getD i Val.nil = buf.getD i Val.nil := by
  simp only [List.getD_eq_getElem?_getD]
  rcases Nat.lt_or_ge i buf.length with h | h
  · rw [List.getElem?_append_left h]
  · rw [List.getElem?_append_right h, List.getElem?_eq_none (l := buf) (by simpa using h)]
    rcases Nat.lt_or_ge (i - buf.length) m with h2 | h2
    · simp [List.getElem?_replicate, h2]
    · rw [List.getElem?_eq_none (by simpa using h2)]

theorem stack_grow_getD (s : OStack) (room i : Nat) :
    (stack_grow s room).buf.getD i Val.nil = s.buf.getD i Val.nil := by
  unfold stack_grow
  split
  · exact append_nil_getD _ _ _
  · rfl

theorem stack_extend_length (s : OStack) (room keep : Nat) :
    (stack_extend s room keep).buf.length =
      if s.off + room ≤ s.buf.length then s.buf.length
      else if room ≤ s.buf.length then s.buf.length * 2 else s.buf.length + room := by
  rw [← stack_grow_length]
  unfold stack_extend
  split <;> simp [zfill_length]

theorem stack_extend_getD (s : OStack) (room keep i : Nat) :
    (stack_extend s room keep).buf.getD i Val.nil =
      if keep < room ∧ s.off + keep ≤ i ∧ i < s.off + room then Val.nil
      else s.buf.getD i Val.nil := by
  unfold stack_extend
  by_cases h2 : keep < room
  · simp only [if_pos h2]
    rw [zfill_getD, stack_grow_off]
    by_cases hi : i < (stack_grow s room).buf.length
    · by_cases hreg : s.off + keep ≤ i ∧ i < s.off + keep + (room - keep)
      · have hr : keep < room ∧ s.off + keep ≤ i ∧ i < s.off + room :=
          ⟨h2, hreg.1, by omega⟩
        rw [if_pos hi, if_pos hreg, if_pos hr]
      · have hr : ¬(keep < room ∧ s.off + keep ≤ i ∧ i < s.off + room) := by
          intro hc
          exact hreg ⟨hc.2.1, by omega⟩
        rw [if_pos hi, if_neg hreg, if_neg hr, stack_grow_getD]
    · have hbl : s.buf.length ≤ i :=
        le_trans (stack_grow_length_ge s room) (Nat.le_of_not_lt hi)
      rw [if_neg hi, List.getD_eq_default _ _ hbl]
      split <;> rfl
  · simp only [if_neg h2]
    rw [stack_grow_getD, if_neg]
    intro hc
    exact h2 hc.1

theorem stack_extend_noop (s : OStack) (room keep : Nat)
    (h1 : s.off + room ≤ s.buf.length) (h2 : room ≤ keep) :
    stack_extend s room keep = s := by
  unfold stack_extend stack_grow
  simp [Nat.not_lt.mpr h1, Nat.not_lt.mpr h2]

/-- Claim C8: `stack_extend` leaves the capacity alone when the required top
fits; otherwise it doubles when `room ≤ old size` and grows by `room`
otherwise; the stack pointer keeps its offset; after the call the window
`[keep, room)` reads as zero (nil) when `room > keep`, while slots below
`keep` keep their values; when nothing is required at all the stack is
untouched. -/
theorem stack_extend_spec (s : OStack) (room keep : Nat) (h : s.off ≤ s.buf.length) :
    (stack_extend s room keep).off = s.off
    ∧ (stack_extend s room keep).buf.length =
        (if s.off + room ≤ s.buf.length then s.buf.length
         else if room ≤ s.buf.length then s.buf.length * 2 else s.buf.length + room)
    ∧ s.off + room ≤ (stack_extend s room keep).buf.length
    ∧ (keep < room → ∀ j, keep ≤ j → j < room →
        (stack_extend s room keep).buf.getD (s.off + j) Val.nil = Val.nil)
    ∧ (∀ j, j < keep →
        (stack_extend s room keep).buf.getD (s.off + j) Val.nil
          = s.buf.getD (s.off + j) Val.nil)
    ∧ (s.off + room ≤ s.buf.length ∧ room ≤ keep → stack_extend s room keep = s) := by
  refine ⟨stack_extend_off s room keep, stack_extend_length s room keep, ?_, ?_, ?_, ?_⟩
  · rw [stack_extend_length]
    split
    · omega
    · split <;> omega
  · intro hkr j hj1 hj2
    rw [stack_extend_getD]
    have hc : keep < room ∧ s.off + keep ≤ s.off + j ∧ s.off + j < s.off + room := by omega
    rw [if_pos hc]
  · intro j hj
    rw [stack_extend_getD]
    have hc : ¬(keep < room ∧ s.off + keep ≤ s.off + j ∧ s.off + j < s.off + room) := by omega
    rw [if_neg hc]
  · intro hp
    exact stack_extend_noop s room keep hp.1 hp.2

/-- A concrete operand stack (capacity 4, register base at offset 2) used by
the C8 witness. -/
def stackW : OStack := OStack.mk [Val.intv 9, Val.intv 8, Val.intv 7, Val.intv 6] 2

/-- Witness for C8 at a concrete stack: `room = 3`, `keep = 1` forces a
growth (doubling, 4 → 8) and zeroes slots `[1,3)` of the window while keeping
slot 0. -/
theorem stack_extend_spec_witness :
    stackW.off ≤ stackW.buf.length
    ∧ (stack_extend stackW 3 1).off = stackW.off
    ∧ stackW.off + 3 ≤ (stack_extend stackW 3 1).buf.length
    ∧ (stack_extend stackW 3 1).buf.getD (stackW.off + 2) Val.nil = Val.nil
    ∧ (stack_extend stackW 3 1).buf.getD (stackW.off + 0) Val.nil
        = stackW.buf.getD (stackW.off + 0) Val.nil :=
  ⟨by decide,
   (stack_extend_spec stackW 3 1 (by decide)).1,
   (stack_extend_spec stackW 3 1 (by decide)).2.2.1,
   (stack_extend_spec stackW 3 1 (by decide)).2.2.2.1 (by decide) 2 (by decide) (by decide),
   (stack_extend_spec stackW 3 1 (by decide)).2.2.2.2.1 0 (by decide)⟩

/-- A call-info frame (`mrb_callinfo`).  `procId` stands for the `proc`
pointer (an index into the machine's procedure table), `env` for the optional
environment (an index into the machine's environment table), and
`target_class` for the `struct RClass*` (a class identifier).  `stackidx` is
the offset recorded relative to `stbase`. -/
structure CallInfo where
  mid : Nat
  procId : Nat
  stackidx : Nat
  nregs : Nat
  argc : Int
  acc : Int
  pc : Nat
  ridx : Nat
  eidx : Nat
  env : Option Nat
  target_class : Nat
deriving DecidableEq

/-- An all-zero frame: `stack_init` memsets the base callinfo to zero, and
`cipush` leaves the fields it does not assign unspecified (the model uses the
zero values; every caller of `cipush` overwrites the fields it relies on). -/
def cidefault : CallInfo :=
  CallInfo.mk 0 0 0 0 0 0 0 0 0 none 0

/-- `cipush` (vm.c:104-124): push a fresh frame that inherits `nregs`,
`eidx` and `ridx` from the frame below and has a null `env`.  The frame
array's capacity doubling is invisible in the list model.  The head of the
list is the current frame `mrb->ci`; the last element is `mrb->cibase`. -/
def cipush (cis : List CallInfo) : List CallInfo :=
  match cis with
  | [] => []
  | top :: rest =>
      { cidefault with
          nregs := top.nregs, eidx := top.eidx, ridx := top.ridx, env := none }
        :: top :: rest

/-- Claim C10: every frame pushed by `cipush` starts with the `nregs`,
`ridx` and `eidx` of the frame below it and a null `env`, so a freshly
entered frame has no rescue handlers, no ensure procedures and no
environment of its own. -/
theorem cipush_inherits_watermarks (top : CallInfo) (rest : List CallInfo) :
    ∃ fresh, cipush (top :: rest) = fresh :: top :: rest
      ∧ fresh.nregs = top.nregs ∧ fresh.ridx = top.ridx
      ∧ fresh.eidx = top.eidx ∧ fresh.env = none :=
  ⟨_, rfl, rfl, rfl, rfl, rfl⟩

/-- Environment storage: a live environment aliases the operand stack at the
owning frame's register base (`e->stack` points into the stack); a detached
one owns a private buffer (after promotion). -/
inductive EnvStorage where
  | onStack : Nat → EnvStorage
  | detached : List Val → EnvStorage

/-- A heap environment (`struct REnv`): its storage, the frame back-link
`cioff` (-1 once detached) and the captured window length encoded in
`e->flags`. -/
structure REnv where
  storage : EnvStorage
  cioff : Int
  len : Nat

/-- Read slot `j` through `e->stack`. -/
def env_read (ostack : List Val) (e : REnv) (j : Nat) : Val :=
  match e.storage with
  | EnvStorage.onStack base => ostack.getD (base + j) Val.nil
  | EnvStorage.detached buf => buf.getD j Val.nil

/-- The environment promotion performed at the top of `OP_RETURN`
(vm.c:965-973): allocate a private buffer of `e->flags` cells, set
`cioff = -1`, copy the captured window into it, and redirect `e->stack`. -/
def promote_env (ostack : List Val) (e : REnv) : REnv :=
  REnv.mk
    (EnvStorage.detached ((List.range e.len).map fun j => env_read ostack e j))
    (-1) e.len

/-- Claim C6: promoting a live environment at `OP_RETURN` allocates a private
buffer of exactly the captured window length, marks `cioff = -1`, and
afterwards every slot of the environment reads the same value as before the
promotion. -/
theorem return_promotes_env (ostack : List Val) (e : REnv) (base : Nat)
    (_hlive : e.storage = EnvStorage.onStack base) :
    (promote_env ostack e).cioff = -1
    ∧ (promote_env ostack e).len = e.len
    ∧ (∃ buf, (promote_env ostack e).storage = EnvStorage.detached buf
        ∧ buf.length = e.len)
    ∧ ∀ j, j < e.len → env_read ostack (promote_env ostack e) j = env_read ostack e j := by
  refine ⟨rfl, rfl, ⟨_, rfl, by simp⟩, ?_⟩
  intro j hj
  show ((List.range e.len).map fun j => env_read ostack e j).getD j Val.nil = _
  rw [List.getD_eq_getElem?_getD, List.getElem?_map]
  simp [List.getElem?_range, hj]

/-- A concrete live environment used by the C6 witness: it captures two slots
starting at stack offset 1 of a three-slot operand stack. -/
def envW : REnv := REnv.mk (EnvStorage.onStack 1) 4 2

/-- Witness for C6: promoting `envW` over the concrete stack
`[10, 20, 30]` detaches it with `cioff = -1` and preserves both slot reads. -/
theorem return_promotes_env_witness :
    envW.storage = EnvStorage.onStack 1
    ∧ (promote_env [Val.intv 10, Val.intv 20, Val.intv 30] envW).cioff = -1
    ∧ env_read [Val.intv 10, Val.intv 20, Val.intv 30]
        (promote_env [Val.intv 10, Val.intv 20, Val.intv 30] envW) 1
        = env_read [Val.intv 10, Val.intv 20, Val.intv 30] envW 1 :=
  ⟨rfl,
   (return_promotes_env [Val.intv 10, Val.intv 20, Val.intv 30] envW 1 rfl).1,
   (return_promotes_env [Val.intv 10, Val.intv 20, Val.intv 30] envW 1 rfl).2.2.2 1
     (by decide)⟩

/-- The environment chain reachable from `mrb->ci->proc->env` through the
`c` links, modelled as the list of the environments' register windows.  A
NULL `proc->env` is the empty list; walking `c` past the end of the chain is
`none`. -/
abbrev EnvChain : Type := List (List Val)

/-- `uvenv` (vm.c:73-83): start at the current procedure's environment and
follow the `c` link `up` times. -/
def uvenv (chain : EnvChain) (up : Nat) : Option (List Val) :=
  (chain : List (List Val))[up]?

/-- `uvget` (vm.c:85-92): nil when there is no environment, otherwise the
slot `idx` of the window found by `uvenv`. -/
def uvget (chain : EnvChain) (up idx : Nat) : Val :=
  match uvenv chain up with
  | none => Val.nil
  | some w => w.getD idx Val.nil

/-- `uvset` (vm.c:94-102): a no-op when there is no environment, otherwise
write slot `idx` of the window found by `uvenv` (the write barrier has no
observable effect in the model). -/
def uvset (chain : EnvChain) (up idx : Nat) (v : Val) : EnvChain :=
  match uvenv chain up with
  | none => chain
  | some w => (chain : List (List Val)).set up (w.set idx v)

/-- The state touched by `OP_GETUPVAR` / `OP_SETUPVAR`: the current register
window, the environment chain of the executing procedure, and the exception
slot. -/
structure UvState where
  regs : List Val
  chain : EnvChain
  exc : Option Val

/-- `OP_GETUPVAR A B C`: `R(A) := uvget(C, B)` (vm.c:550-554). -/
def op_getupvar (s : UvState) (a b c : Nat) : UvState :=
  UvState.mk (s.regs.set a (uvget s.chain c b)) s.chain s.exc

/-- `OP_SETUPVAR A B C`: `uvset(C, B, R(A))` (vm.c:556-560). -/
def op_setupvar (s : UvState) (a b c : Nat) : UvState :=
  UvState.mk s.regs (uvset s.chain c b (s.regs.getD a Val.nil)) s.exc

/-- Claim C9: when the executing procedure has no environment
(`proc->env == NULL`, i.e. an empty chain), `OP_GETUPVAR` writes nil into
`R(A)` and changes nothing else, and `OP_SETUPVAR` is a complete no-op;
neither raises. -/
theorem upvar_no_env_safe (s : UvState) (a b c : Nat) (h : s.chain = ([] : List (List Val))) :
    (op_getupvar s a b c).regs = s.regs.set a Val.nil
    ∧ (op_getupvar s a b c).chain = s.chain
    ∧ (op_getupvar s a b c).exc = s.exc
    ∧ op_setupvar s a b c = s := by
  obtain ⟨regs, chain, exc⟩ := s
  simp only at h
  subst h
  refine ⟨?_, rfl, rfl, ?_⟩ <;>
    simp [op_getupvar, op_setupvar, uvget, uvset, uvenv]

/-- Witness for C9 at a concrete state with no environment chain. -/
theorem upvar_no_env_safe_witness :
    (UvState.mk [Val.intv 5] ([] : List (List Val)) (some (Val.obj 3))).chain
        = ([] : List (List Val))
    ∧ (op_getupvar (UvState.mk [Val.intv 5] ([] : List (List Val)) (some (Val.obj 3))) 0 1 2).regs
        = [Val.intv 5].set 0 Val.nil
    ∧ op_setupvar (UvState.mk [Val.intv 5] ([] : List (List Val)) (some (Val.obj 3))) 0 1 2
        = UvState.mk [Val.intv 5] ([] : List (List Val)) (some (Val.obj 3)) :=
  ⟨rfl,
   (upvar_no_env_safe (UvState.mk [Val.intv 5] ([] : List (List Val)) (some (Val.obj 3))) 0 1 2 rfl).1,
   (upvar_no_env_safe (UvState.mk [Val.intv 5] ([] : List (List Val)) (some (Val.obj 3))) 0 1 2 rfl).2.2.2⟩

/-- The exception classes the interpreter core raises itself. -/
inductive ExcClass where
  | argumentError : ExcClass
  | localJumpError : ExcClass
  | runtimeError : ExcClass

/-- An exception object as built by `mrb_exc_new`: its class and message. -/
structure ExcVal where
  cls : ExcClass
  msg : String

/-- `argnum_error` (vm.c:275-292): build an ArgumentError whose message is
`"wrong number of arguments (<ci->argc> for <num>)"`, prefixed with
`"'<method name>': "` when the frame has a method id. -/
def argnum_error (midName : Option String) (ciArgc : Int) (num : Nat) : ExcVal :=
  ExcVal.mk ExcClass.argumentError
    ((match midName with
      | some nm => "'" ++ nm ++ "': "
      | none => "") ++
     "wrong number of arguments (" ++ toString ciArgc ++ " for " ++ toString num ++ ")")

/-- The strict-arity check of `OP_ENTER` (vm.c:916-923) for a non-packed
actual argument count.  The declared shape is `(m1, o, r, m2)` with
`len = m1 + o + r + m2`; when the procedure is strict and
`argc < m1 + m2 || (r == 0 && argc > len)` the check produces the
`argnum_error(m1+m2)` exception (at this point `mrb->ci->argc` still holds
the actual count), otherwise it produces nothing. -/
def op_enter_check (strict : Bool) (m1 o : Nat) (r : Bool) (m2 : Nat)
    (midName : Option String) (argc : Nat) : Option ExcVal :=
  let len := m1 + o + (if r then 1 else 0) + m2
  if strict = true ∧ (argc < m1 + m2 ∨ (r = false ∧ len < argc)) then
    some (argnum_error midName (argc : Int) (m1 + m2))
  else
    none

/-- Claim C4: for a strict procedure with shape `(m1, o, r, m2)` and a
non-packed actual count `argc`, `OP_ENTER` raises ArgumentError exactly when
`argc < m1 + m2` or (`r = 0` and `argc > m1 + o + r + m2`), and the raised
exception's message contains
`"wrong number of arguments (<argc> for <m1+m2>)"`. -/
theorem enter_strict_arity (m1 o : Nat) (r : Bool) (m2 : Nat)
    (mn : Option String) (argc : Nat) :
    (argc < m1 + m2 ∨ (r = false ∧ m1 + o + (if r then 1 else 0) + m2 < argc) →
      op_enter_check true m1 o r m2 mn argc
          = some (argnum_error mn (argc : Int) (m1 + m2))
      ∧ (argnum_error mn (argc : Int) (m1 + m2)).cls = ExcClass.argumentError
      ∧ ∃ p q, (argnum_error mn (argc : Int) (m1 + m2)).msg
          = p ++ ("wrong number of arguments (" ++ toString (argc : Int) ++ " for "
              ++ toString (m1 + m2) ++ ")") ++ q)
    ∧ (¬ (argc < m1 + m2 ∨ (r = false ∧ m1 + o + (if r then 1 else 0) + m2 < argc)) →
      op_enter_check true m1 o r m2 mn argc = none) := by
  constructor
  · intro hcond
    refine ⟨?_, rfl, ?_⟩
    · unfold op_enter_check
      rw [if_pos ⟨rfl, hcond⟩]
    · cases mn with
      | none =>
          refine ⟨"", "", ?_⟩
          simp only [argnum_error, String.append_assoc, String.append_empty,
            String.empty_append]
      | some nm =>
          refine ⟨"'" ++ nm ++ "': ", "", ?_⟩
          simp only [argnum_error, String.append_assoc, String.append_empty,
            String.empty_append]
  · intro hcond
    unfold op_enter_check
    rw [if_neg]
    intro hc
    exact hcond hc.2

/-- Witness for C4, matching the spec scenario: a strict procedure with
`(m1=1, o=0, r=0, m2=0)` invoked with 2 arguments raises an ArgumentError
whose message is exactly `"wrong number of arguments (2 for 1)"`, and with 1
argument it raises nothing. -/
theorem enter_strict_arity_witness :
    ((2 < 1 + 0 ∨ (false = false ∧ 1 + 0 + (if false then 1 else 0) + 0 < 2))
      ∧ op_enter_check true 1 0 false 0 none 2
          = some (argnum_error none (2 : Int) (1 + 0))
      ∧ (argnum_error none (2 : Int) (1 + 0)).msg
          = "wrong number of arguments (2 for 1)")
    ∧ op_enter_check true 1 0 false 0 none 1 = none :=
  ⟨⟨by decide,
    ((enter_strict_arity 1 0 false 0 none 2).1 (by decide)).1,
    by decide⟩,
   (enter_strict_arity 1 0 false 0 none 1).2 (by decide)⟩

/-- `memmove(regs+a+2, regs+a+1, sizeof(mrb_value)*(n+1))` (vm.c:668): shift
the `n` inline arguments and the block slot one register upwards. -/
def shift_args_up (regs : List Val) (a n : Nat) : List Val :=
  (List.range regs.length).map fun i =>
    if a + 2 ≤ i ∧ i ≤ a + 2 + n then regs.getD (i - 1) Val.nil
    else regs.getD i Val.nil

/-- `mrb_ary_unshift(mrb, regs[a+1], sym)` on the packed argument array (a
host array primitive): prepend an element.  It is only ever applied to an
array value. -/
def ary_unshift (v x : Val) : Val :=
  match v with
  | Val.ary l => Val.ary (x :: l)
  | w => w

/-- The `method_missing` call rewriting of `OP_SEND` (vm.c:659-672), applied
when method search fails: for an inline count `n ≠ 127` the arguments and
block are shifted up, the original selector is stored as a symbol in
`R(a+1)`, and the count becomes `n+1`; for `n = 127` the selector is
unshifted onto the packed array in `R(a+1)` and the count stays 127.
Returns the updated register file and count. -/
def send_method_missing_rewrite (regs : List Val) (a n midSym : Nat) :
    List Val × Nat :=
  if n = 127 then
    (regs.set (a + 1) (ary_unshift (regs.getD (a + 1) Val.nil) (Val.symv midSym)), n)
  else
    ((shift_args_up regs a n).set (a + 1) (Val.symv midSym), n + 1)

theorem shift_args_up_length (regs : List Val) (a n : Nat) :
    (shift_args_up regs a n).length = regs.length := by
  simp [shift_args_up]

theorem shift_args_up_getD (regs : List Val) (a n i : Nat) :
    (shift_args_up regs a n).getD i Val.nil =
      if i < regs.length then
        (if a + 2 ≤ i ∧ i ≤ a + 2 + n then regs.getD (i - 1) Val.nil
         else regs.getD i Val.nil)
      else Val.nil := by
  simp only [shift_args_up, List.getD_eq_getElem?_getD, List.getElem?_map, List.getElem?_range]
  by_cases h : i < regs.length
  · simp [h, List.getD_eq_getElem?_getD]
  · rw [List.getElem?_eq_none (by simpa using h)]
    simp [h]

/-- Claim C7: when `OP_SEND` finds no method it retargets `method_missing`;
for an inline count `n ≠ 127` the `n` arguments and the block slot move up
one register, `R(a+1)` becomes the original selector symbol and the count
becomes `n+1`; for a packed call (`n = 127`) the selector is unshifted onto
the packed array and the count stays packed. -/
theorem method_missing_rewrite_correct (regs : List Val) (a n midSym : Nat) :
    (n ≠ 127 → a + 2 + n < regs.length →
      (send_method_missing_rewrite regs a n midSym).2 = n + 1
      ∧ (send_method_missing_rewrite regs a n midSym).1.getD (a + 1) Val.nil
          = Val.symv midSym
      ∧ ∀ j, j ≤ n →
          (send_method_missing_rewrite regs a n midSym).1.getD (a + 2 + j) Val.nil
            = regs.getD (a + 1 + j) Val.nil)
    ∧ (∀ l, n = 127 → a + 1 < regs.length →
        regs.getD (a + 1) Val.nil = Val.ary l →
      (send_method_missing_rewrite regs a n midSym).2 = 127
      ∧ (send_method_missing_rewrite regs a n midSym).1.getD (a + 1) Val.nil
          = Val.ary (Val.symv midSym :: l)) := by
  constructor
  · intro hn hlen
    unfold send_method_missing_rewrite
    rw [if_neg hn]
    refine ⟨rfl, ?_, ?_⟩
    · have h1 : a + 1 < (shift_args_up regs a n).length := by
        rw [shift_args_up_length]; omega
      simp [List.getD_eq_getElem?_getD, List.getElem?_set_eq_of_lt _ h1]
    · intro j hj
      have hne : a + 1 ≠ a + 2 + j := by omega
      rw [List.getD_eq_getElem?_getD, List.getElem?_set_ne hne,
        ← List.getD_eq_getElem?_getD _ _ Val.nil, shift_args_up_getD]
      have hlt : a + 2 + j < regs.length := by omega
      have hreg : a + 2 ≤ a + 2 + j ∧ a + 2 + j ≤ a + 2 + n := by omega
      rw [if_pos hlt, if_pos hreg]
      congr 1
      omega
  · intro l hn hlt hary
    subst hn
    unfold send_method_missing_rewrite
    rw [if_pos rfl]
    refine ⟨rfl, ?_⟩
    rw [List.getD_eq_getElem?_getD, List.getElem?_set_eq_of_lt _ hlt]
    rw [hary]
    rfl

/-- Witness for C7: a five-register window with one inline argument
(`a = 0`, `n = 1`) is rewritten for `method_missing` — count becomes 2, the
selector lands in `R(1)`, argument and block shift up — and a packed call
(`n = 127`) gets the selector unshifted onto the packed array. -/
theorem method_missing_rewrite_correct_witness :
    ((send_method_missing_rewrite
        [Val.obj 1, Val.intv 11, Val.obj 9, Val.nil, Val.nil] 0 1 7).2 = 2
     ∧ (send_method_missing_rewrite
        [Val.obj 1, Val.intv 11, Val.obj 9, Val.nil, Val.nil] 0 1 7).1.getD 1 Val.nil
          = Val.symv 7
     ∧ (send_method_missing_rewrite
        [Val.obj 1, Val.intv 11, Val.obj 9, Val.nil, Val.nil] 0 1 7).1.getD 2 Val.nil
          = Val.intv 11)
    ∧ ((send_method_missing_rewrite
        [Val.obj 1, Val.ary [Val.intv 4]] 0 127 7).2 = 127
     ∧ (send_method_missing_rewrite
        [Val.obj 1, Val.ary [Val.intv 4]] 0 127 7).1.getD 1 Val.nil
          = Val.ary (Val.symv 7 :: [Val.intv 4])) :=
  ⟨⟨((method_missing_rewrite_correct
        [Val.obj 1, Val.intv 11, Val.obj 9, Val.nil, Val.nil] 0 1 7).1
        (by decide) (by decide)).1,
    ((method_missing_rewrite_correct
        [Val.obj 1, Val.intv 11, Val.obj 9, Val.nil, Val.nil] 0 1 7).1
        (by decide) (by decide)).2.1,
    by
      have := ((method_missing_rewrite_correct
        [Val.obj 1, Val.intv 11, Val.obj 9, Val.nil, Val.nil] 0 1 7).1
        (by decide) (by decide)).2.2 0 (by decide)
      simpa using this⟩,
   ((method_missing_rewrite_correct [Val.obj 1, Val.ary [Val.intv 4]] 0 127 7).2
      [Val.intv 4] rfl (by decide) rfl)⟩

/-- The opcode subset of `mrb_run`'s dispatch loop exercised by the claims.
`SEND`/`TAILCALL` carry the resolved selector symbol directly in place of the
symbol-table index `B` (the machine has no per-irep symbol table); `RETURN`
carries only `A` — the machine models the `OP_R_NORMAL` mode. -/
inductive Instr where
  | NOP : Instr
  | MOVE : Nat → Nat → Instr
  | LOADI : Nat → Int → Instr
  | LOADNIL : Nat → Instr
  | JMP : Int → Instr
  | ONERR : Int → Instr
  | RESCUE : Nat → Instr
  | POPERR : Nat → Instr
  | RAISE : Nat → Instr
  | EPUSH : Nat → Instr
  | EPOP : Nat → Instr
  | SEND : Nat → Nat → Nat → Instr
  | TAILCALL : Nat → Nat → Nat → Instr
  | RETURN : Nat → Instr
  | STOP : Instr
deriving DecidableEq

/-- An irep: the instruction sequence and the declared register count. -/
structure Irep where
  iseq : List Instr
  nregs : Nat
deriving DecidableEq

/-- A bytecode procedure (`struct RProc`): the irep it executes and its
`target_class`.  Host-native procedures are outside the modelled machine
(the claims run bytecode callees only). -/
structure RProcM where
  irep : Nat
  target_class : Nat
deriving DecidableEq

/-- The static program environment: the state-global irep table, the
procedure table, and the host method search
(`mrb_class` + `mrb_method_search_vm`) as an opaque callback from receiver
value and selector to a procedure id. -/
structure Prog where
  ireps : List Irep
  procs : List RProcM
  search : Val → Nat → Option Nat

/-- The mutable interpreter state of `mrb_run`: the operand stack buffer and
current register-base offset, the frame stack (head =`mrb->ci`, last
=`mrb->cibase`), the rescue stack of saved handler pcs, the ensure stack of
registered procedure ids, the exception slot, the trace of invoked ensure
procedures (the model's record of `ecall` invocations), the executing irep
and pc, and the environment table. -/
structure MState where
  stbase : List Val
  stackOff : Nat
  cis : List CallInfo
  rescueStk : List Nat
  ensureStk : List Nat
  exc : Option Val
  etrace : List Nat
  curIrep : Nat
  pc : Nat
  envs : List REnv

/-- The empty machine state (used only as a `getD` default). -/
def mstate0 : MState :=
  MState.mk [] 0 [] [] [] none [] 0 0 []

/-- The current frame `mrb->ci`. -/
def currentCi (s : MState) : CallInfo := s.cis.headD cidefault

/-- `regs[i]`: read through the current register base. -/
def regsGet (s : MState) (i : Nat) : Val := s.stbase.getD (s.stackOff + i) Val.nil

/-- `regs[i] = v`: write through the current register base. -/
def regsSet (s : MState) (i : Nat) (v : Val) : MState :=
  { s with stbase := s.stbase.set (s.stackOff + i) v }

/-- `NEXT`: advance the pc past the executed instruction. -/
def advance (s : MState) : MState := { s with pc := s.pc + 1 }

/-- Update `mrb->ci->ridx`. -/
def setCurRidx (s : MState) (v : Nat) : MState :=
  match s.cis with
  | [] => s
  | ci :: rest => { s with cis := { ci with ridx := v } :: rest }

/-- Update `mrb->ci->eidx`. -/
def setCurEidx (s : MState) (v : Nat) : MState :=
  match s.cis with
  | [] => s
  | ci :: rest => { s with cis := { ci with eidx := v } :: rest }

/-- Write slot `i` of a growable state array (the rescue / ensure stacks grow
by doubling in C; capacity is invisible in the list model, so writing at the
current size appends). -/
def arrSet (l : List Nat) (i v : Nat) : List Nat :=
  if i < l.length then l.set i v else l ++ [v]

/-- `ecall` (vm.c:132-150): push a frame for `mrb->ensure[i]`, run it to
completion through a recursive `mrb_run`, and pop it again.  The pushed frame
returns with `acc = -1`, so a completed ensure run leaves the interpreter
state as it found it; the ensure bodies themselves are opaque procedures from
the claims' viewpoint, so the model records the invocation in `etrace`. -/
def ecall (s : MState) (i : Nat) : MState :=
  { s with etrace := s.etrace ++ [s.ensureStk.getD i 0] }

/-- `OP_EPOP A` (vm.c:634-643): `a` times, decrement `mrb->ci->eidx` and
`ecall` the ensure procedure at the decremented index. -/
def op_epop : MState → Nat → MState
  | s, 0 => s
  | s, n + 1 =>
      let e := (currentCi s).eidx
      op_epop (ecall (setCurEidx s (e - 1)) (e - 1)) n

/-- The ensure flush on a normal return (vm.c:1026-1028):
`while (eidx > mrb->ci->eidx) ecall(mrb, --eidx)`. -/
def runEnsuresDown : MState → Nat → Nat → MState
  | s, 0, _ => s
  | s, e + 1, t => if t < e + 1 then runEnsuresDown (ecall s e) e t else s

/-- The result of one dispatch step: continue, return a value to the host
(`mrb_run` returns), or undefined behaviour / a configuration outside the
modelled subset. -/
inductive StepRes where
  | cont : MState → StepRes
  | done : Val → MState → StepRes
  | stuck : StepRes

/-- Fetch the instruction at the current pc of the executing irep. -/
def fetch (P : Prog) (s : MState) : Option Instr :=
  ((P.ireps.getD s.curIrep (Irep.mk [] 0)).iseq)[s.pc]?

/-- The frame-popping loop of `L_RAISE` (vm.c:981-988): pop while the current
frame shares its `ridx` with the frame below; on reaching `cibase`, stop the
VM when its `ridx` is 0 and otherwise break to resume there.  Returns the
remaining frames and whether execution resumes in a rescue handler (`true`)
or stops (`false`). -/
def raisePops : List CallInfo → List CallInfo × Bool
  | [] => ([], false)
  | [ci] => if ci.ridx = 0 then ([ci], false) else ([ci], true)
  | ci :: ci2 :: rest =>
      if ci.ridx = ci2.ridx then raisePops (ci2 :: rest)
      else (ci :: ci2 :: rest, true)

/-- `L_RAISE` (vm.c:978-993).  Note the unconditional
`if (ci == mrb->cibase) goto L_STOP;` at entry: a raise in the base frame
stops the VM (returning nil with the exception slot still set) even when the
base frame has pushed a rescue handler.  When unwinding stops in a frame with
a handler, the machine rebinds the irep from that frame's proc, restores
`stack = stbase + ci->stackidx`, and jumps to `rescue[--ci->ridx]`. -/
def doRaise (P : Prog) (s : MState) : StepRes :=
  match s.cis with
  | [] => StepRes.stuck
  | [_] => StepRes.done Val.nil s
  | _ :: _ :: _ =>
      let pr := raisePops s.cis
      if pr.2 then
        match pr.1 with
        | [] => StepRes.stuck
        | ci :: rest =>
            StepRes.cont { s with
              cis := { ci with ridx := ci.ridx - 1 } :: rest,
              stackOff := ci.stackidx,
              curIrep := (P.procs.getD ci.procId (RProcM.mk 0 0)).irep,
              pc := s.rescueStk.getD (ci.ridx - 1) 0 }
      else
        StepRes.done Val.nil { s with cis := pr.1 }

/-- `OP_SEND A B C` to a bytecode callee (vm.c:646-716): resolve the method,
push a frame recording `stackidx = stack - stbase` and `pc = caller pc + 1`,
shift the register base by `A`, set `acc = A` and `nregs`, widen the stack
(`max(nregs,3)` keeping 3 when the arguments are packed, else `nregs` keeping
`argc+2`), and jump to the callee's first instruction.  A failed method
search would enter the `method_missing` rewrite (modelled separately by
`send_method_missing_rewrite`); the machine's programs always resolve. -/
def op_send (P : Prog) (s : MState) (a mid n : Nat) : StepRes :=
  match P.search (regsGet s a) mid with
  | none => StepRes.stuck
  | some m =>
      match P.procs[m]? with
      | none => StepRes.stuck
      | some p =>
          match P.ireps[p.irep]? with
          | none => StepRes.stuck
          | some irep =>
              match cipush s.cis with
              | [] => StepRes.stuck
              | fresh :: below =>
                  let argcv : Int := if n = 127 then -1 else (n : Int)
                  let ci : CallInfo :=
                    { fresh with
                        mid := mid, procId := m, stackidx := s.stackOff,
                        argc := argcv, target_class := p.target_class,
                        pc := s.pc + 1, acc := (a : Int), nregs := irep.nregs }
                  let room := if argcv < 0 then max irep.nregs 3 else irep.nregs
                  let keep := if argcv < 0 then 3 else n + 2
                  let os := stack_extend (OStack.mk s.stbase (s.stackOff + a)) room keep
                  StepRes.cont { s with
                    cis := ci :: below, stbase := os.buf, stackOff := os.off,
                    curIrep := p.irep, pc := 0 }

/-- `memmove(mrb->stack, &regs[a], cnt*sizeof(mrb_value))` (vm.c:1081): copy
`cnt` values from window offset `a` down to the window base. -/
def memmoveDown (buf : List Val) (off a cnt : Nat) : List Val :=
  (List.range buf.length).map fun i =>
    if off ≤ i ∧ i < off + cnt then buf.getD (i + a) Val.nil else buf.getD i Val.nil

/-- `OP_TAILCALL A B C` to a bytecode callee (vm.c:1044-1103).  The source
executes `mrb->ci = ci = &mrb->ci[-1];` — it decrements the frame pointer and
then mutates `mid`, `target_class` and `argc` of the frame it now points at,
i.e. the caller's record — then moves `argc+1` values down to the (unchanged)
register base and widens the stack.  Executing this with `mrb->ci == cibase`
would move the frame pointer below `cibase` (undefined behaviour), modelled
as stuck. -/
def op_tailcall (P : Prog) (s : MState) (a mid n : Nat) : StepRes :=
  match P.search (regsGet s a) mid with
  | none => StepRes.stuck
  | some m =>
      match P.procs[m]? with
      | none => StepRes.stuck
      | some p =>
          match P.ireps[p.irep]? with
          | none => StepRes.stuck
          | some irep =>
              match s.cis with
              | [] => StepRes.stuck
              | [_] => StepRes.stuck
              | _cur :: caller :: rest =>
                  let argcv : Int := if n = 127 then -1 else (n : Int)
                  let ci : CallInfo :=
                    { caller with
                        mid := mid, target_class := p.target_class, argc := argcv }
                  let buf1 := memmoveDown s.stbase s.stackOff a (argcv + 1).toNat
                  let room := if argcv < 0 then max irep.nregs 3 else irep.nregs
                  let keep := if argcv < 0 then 3 else n + 2
                  let os := stack_extend (OStack.mk buf1 s.stackOff) room keep
                  StepRes.cont { s with
                    cis := ci :: rest, stbase := os.buf, stackOff := os.off,
                    curIrep := p.irep, pc := 0 }

/-- The environment-promotion prologue of `OP_RETURN` (vm.c:965-973): when
the leaving frame owns an environment, promote it via `promote_env`. -/
def op_return_env (s : MState) : MState :=
  match (currentCi s).env with
  | none => s
  | some eid =>
      let old := s.envs.getD eid (REnv.mk (EnvStorage.detached []) (-1) 0)
      { s with envs := s.envs.set eid (promote_env s.stbase old) }

/-- The frame-popping half of a normal return (vm.c:996-1040): pop the
frame, restore `pc = ci->pc` and `stack = stbase + ci->stackidx` from the
popped record, run the ensure procedures above the caller's watermark, then
return the value to the host (`acc < 0`) or store it into the caller's
register `acc` and continue there.  A return in the base frame would pop
`mrb->ci` below `cibase` (undefined behaviour), modelled as stuck. -/
def op_return_pop (P : Prog) (s0 : MState) (a : Nat) : StepRes :=
  match s0.cis with
  | [] => StepRes.stuck
  | [_] => StepRes.stuck
  | ci :: caller :: rest =>
      let v := regsGet s0 a
      let s1 := { s0 with cis := caller :: rest, stackOff := ci.stackidx, pc := ci.pc }
      let s2 := runEnsuresDown s1 ci.eidx caller.eidx
      if ci.acc < 0 then StepRes.done v s2
      else
        StepRes.cont
          (regsSet
            { s2 with
                curIrep := (P.procs.getD caller.procId (RProcM.mk 0 0)).irep }
            ci.acc.toNat v)

/-- `OP_RETURN A` in `OP_R_NORMAL` mode (vm.c:962-1042): promote the leaving
frame's environment if it owns one, enter `L_RAISE` when an exception is
pending, and otherwise pop the frame normally. -/
def op_return (P : Prog) (s : MState) (a : Nat) : StepRes :=
  let s0 := op_return_env s
  match s0.exc with
  | some _ => doRaise P s0
  | none => op_return_pop P s0 a

/-- One iteration of the dispatch loop: fetch, decode, execute.  The
arena-checkpoint restore of `NEXT` has no observable effect in the model. -/
def step (P : Prog) (s : MState) : StepRes :=
  match fetch P s with
  | none => StepRes.stuck
  | some ins =>
      match ins with
      | Instr.NOP => StepRes.cont (advance s)
      | Instr.MOVE a b => StepRes.cont (advance (regsSet s a (regsGet s b)))
      | Instr.LOADI a v => StepRes.cont (advance (regsSet s a (Val.intv v)))
      | Instr.LOADNIL a => StepRes.cont (advance (regsSet s a Val.nil))
      | Instr.JMP sbx => StepRes.cont { s with pc := ((s.pc : Int) + sbx).toNat }
      | Instr.ONERR sbx =>
          let ci := currentCi s
          let s1 :=
            { s with rescueStk := arrSet s.rescueStk ci.ridx (((s.pc : Int) + sbx).toNat) }
          StepRes.cont (advance (setCurRidx s1 (ci.ridx + 1)))
      | Instr.RESCUE a =>
          StepRes.cont (advance { regsSet s a (s.exc.getD Val.nil) with exc := none })
      | Instr.POPERR a =>
          StepRes.cont (advance (setCurRidx s ((currentCi s).ridx - a)))
      | Instr.RAISE a => doRaise P { s with exc := some (regsGet s a) }
      | Instr.EPUSH bx =>
          let ci := currentCi s
          let s1 := { s with ensureStk := arrSet s.ensureStk ci.eidx bx }
          StepRes.cont (advance (setCurEidx s1 (ci.eidx + 1)))
      | Instr.EPOP a => StepRes.cont (advance (op_epop s a))
      | Instr.SEND a mid n => op_send P s a mid n
      | Instr.TAILCALL a mid n => op_tailcall P s a mid n
      | Instr.RETURN a => op_return P s a
      | Instr.STOP => StepRes.done Val.nil s

/-- Run `fuel` steps, returning the state reached when every step continued. -/
def runState (P : Prog) : Nat → MState → Option MState
  | 0, s => some s
  | fuel + 1, s =>
      match step P s with
      | StepRes.cont s1 => runState P fuel s1
      | _ => none

/-- Run to completion within `fuel` steps, returning the value handed back to
the host together with the final exception slot. -/
def runOut (P : Prog) : Nat → MState → Option (Val × Option Val)
  | 0, _ => none
  | fuel + 1, s =>
      match step P s with
      | StepRes.cont s1 => runOut P fuel s1
      | StepRes.done v s1 => some (v, s1.exc)
      | StepRes.stuck => none

/-- Run up to `fuel` steps and expose the final dispatch result. -/
def runN (P : Prog) : Nat → MState → StepRes
  | 0, s => StepRes.cont s
  | fuel + 1, s =>
      match step P s with
      | StepRes.cont s1 => runN P fuel s1
      | r => r

/-- `stack_init` (vm.c:27-42) followed by the `mrb_run` prologue
(vm.c:401-406): 128 zeroed (nil) stack cells, a zeroed base frame, then
`mrb->ci->proc = proc; mrb->ci->nregs = irep->nregs + 2`. -/
def mrb_run_init (P : Prog) (procId : Nat) : MState :=
  let p := P.procs.getD procId (RProcM.mk 0 0)
  let ir := P.ireps.getD p.irep (Irep.mk [] 0)
  MState.mk (List.replicate 128 Val.nil) 0
    [{ cidefault with procId := procId, nregs := ir.nregs + 2 }]
    [] [] none [] p.irep 0 []

/-- The C1 scenario bytecode:
`[ONERR L1; RAISE r1; LOADI r2,42; JMP L2; L1: RESCUE r2; L2: RETURN r2]`
with `L1 = 4` and `L2 = 5` (both `ONERR` and `JMP` offsets are relative to
the instruction's own pc). -/
def rescueIseq : List Instr :=
  [Instr.ONERR 4, Instr.RAISE 1, Instr.LOADI 2 42, Instr.JMP 2,
   Instr.RESCUE 2, Instr.RETURN 2]

/-- The C1 program: one bytecode procedure, no methods. -/
def rescueProg : Prog :=
  Prog.mk [Irep.mk rescueIseq 3] [RProcM.mk 0 0] (fun _ _ => none)

/-- The C1 initial state: a fresh `mrb_run` entry in the base frame with
register r1 preloaded to an exception object. -/
def rescueInit : MState :=
  let s := mrb_run_init rescueProg 0
  { s with stbase := s.stbase.set 1 (Val.obj 1) }

/-- Claim C1, evaluated at the scenario: the `ONERR` handler is pushed
(`ridx = 1` after one step), but the `RAISE` in the base frame hits the
unconditional `if (ci == mrb->cibase) goto L_STOP;` at the top of `L_RAISE`,
so the run returns nil to the host with the exception slot still set instead
of resuming at the rescue handler and returning the exception object. -/
theorem raise_in_base_frame_returns_nil :
    (currentCi ((runState rescueProg 1 rescueInit).getD mstate0)).ridx = 1
    ∧ runOut rescueProg 10 rescueInit = some (Val.nil, some (Val.obj 1)) :=
  ⟨rfl, rfl⟩

/-- The same scenario executed one frame above the base (as after a SEND or a
`funcall` entry, `acc = -1`): the unwinding loop honours the handler, the
`RESCUE` stores the exception and the run returns the exception object — the
behaviour the spec describes, confirming that the base-frame early exit is
the sole divergence. -/
def rescueDeepInit : MState :=
  let s := mrb_run_init rescueProg 0
  { s with
      stbase := s.stbase.set 1 (Val.obj 1),
      cis := { cidefault with procId := 0, nregs := 5, acc := -1 } :: s.cis }

theorem rescue_resumes_above_base :
    runOut rescueProg 10 rescueDeepInit = some (Val.obj 1, none) :=
  rfl

/-- The C2 / amended-C2 program: the base procedure sends selector `5` with
`A = 1` to a one-instruction callee `[RETURN 0]`. -/
def sendProg : Prog :=
  Prog.mk [Irep.mk [Instr.SEND 1 5 0, Instr.STOP] 3, Irep.mk [Instr.RETURN 0] 2]
    [RProcM.mk 0 0, RProcM.mk 1 0]
    (fun _ mid => if mid = 5 then some 1 else none)

/-- Fresh `mrb_run` entry for `sendProg`. -/
def sendInit : MState := mrb_run_init sendProg 0

/-- The state immediately after the completed `OP_SEND`. -/
def sendAfter1 : MState := (runState sendProg 1 sendInit).getD mstate0

/-- The state after the callee's `OP_RETURN` as well. -/
def sendAfter2 : MState := (runState sendProg 2 sendInit).getD mstate0

/-- Claim C2, refuted at a concrete reachable state: immediately after a
completed `OP_SEND` with `A = 1` into a bytecode callee, the register base
sits at offset 1 while the current frame's recorded `stackidx` is 0 — the
send records `stackidx` before `mrb->stack += a`, so
`stack = stbase + ci->stackidx` does not hold. -/
theorem send_breaks_stack_stackidx_invariant :
    runState sendProg 1 sendInit = some sendAfter1
    ∧ sendAfter1.stackOff = 1
    ∧ (currentCi sendAfter1).stackidx = 0
    ∧ ¬ (sendAfter1.stackOff = (currentCi sendAfter1).stackidx) :=
  ⟨rfl, rfl, rfl, by decide⟩

theorem runEnsuresDown_stackOff (e : Nat) :
    ∀ (s : MState) (t : Nat), (runEnsuresDown s e t).stackOff = s.stackOff := by
  induction e with
  | zero => intro s t; rfl
  | succ n ih =>
      intro s t
      unfold runEnsuresDown
      split
      · exact ih (ecall s n) t
      · rfl

theorem op_return_env_exc (s : MState) : (op_return_env s).exc = s.exc := by
  unfold op_return_env
  split <;> rfl

theorem op_return_env_cis (s : MState) : (op_return_env s).cis = s.cis := by
  unfold op_return_env
  split <;> rfl

theorem op_return_pop_stackOff (P : Prog) (s0 t : MState) (a : Nat)
    (h : op_return_pop P s0 a = StepRes.cont t) :
    t.stackOff = (currentCi s0).stackidx := by
  obtain ⟨stb, off, cis, rs, es, exc, tr, ir, pcv, envs⟩ := s0
  rcases cis with _ | ⟨ci, cis2⟩
  · exact StepRes.noConfusion h
  · rcases cis2 with _ | ⟨caller, rest⟩
    · exact StepRes.noConfusion h
    · unfold op_return_pop at h
      simp only at h
      split at h
      · exact StepRes.noConfusion h
      · cases h
        show (runEnsuresDown _ _ _).stackOff = _
        rw [runEnsuresDown_stackOff]
        rfl

/-- Claim C2 (amended): `ci->stackidx` records the caller's operand-stack
offset at the moment of the push, before the register base is shifted:
after an `OP_SEND` with operand `A` that enters a bytecode callee,
`stack = stbase + ci.stackidx + A` (and the recorded `stackidx` is the
pre-send offset); a normal `OP_RETURN` restores
`stack = stbase + stackidx` of the frame it pops. -/
theorem send_stackidx_records_preshift (P : Prog) (s t : MState) (a mid n aR : Nat) :
    (op_send P s a mid n = StepRes.cont t →
      (currentCi t).stackidx = s.stackOff
      ∧ t.stackOff = (currentCi t).stackidx + a)
    ∧ (s.exc = none → op_return P s aR = StepRes.cont t →
      t.stackOff = (currentCi s).stackidx) := by
  constructor
  · intro h
    unfold op_send at h
    split at h
    · exact StepRes.noConfusion h
    · split at h
      · exact StepRes.noConfusion h
      · split at h
        · exact StepRes.noConfusion h
        · split at h
          · exact StepRes.noConfusion h
          · cases h
            refine ⟨rfl, ?_⟩
            show (stack_extend (OStack.mk s.stbase (s.stackOff + a)) _ _).off = _
            rw [stack_extend_off]
            rfl
  · intro hexc h
    unfold op_return at h
    simp only [] at h
    rw [show (op_return_env s).exc = none from (op_return_env_exc s).trans hexc] at h
    have h2 : op_return_pop P (op_return_env s) aR = StepRes.cont t := h
    rw [op_return_pop_stackOff P (op_return_env s) t aR h2]
    show ((op_return_env s).cis.headD cidefault).stackidx = _
    rw [op_return_env_cis]
    rfl

/-- Witness for the amended C2 at the concrete send: the recorded `stackidx`
is the pre-send offset 0, the callee runs with the base shifted by `A = 1`,
and its `OP_RETURN` restores the stack to `stbase + stackidx`. -/
theorem send_stackidx_records_preshift_witness :
    (op_send sendProg sendInit 1 5 0 = StepRes.cont sendAfter1
      ∧ (currentCi sendAfter1).stackidx = sendInit.stackOff
      ∧ sendAfter1.stackOff = (currentCi sendAfter1).stackidx + 1)
    ∧ (sendAfter1.exc = none
      ∧ op_return sendProg sendAfter1 0 = StepRes.cont sendAfter2
      ∧ sendAfter2.stackOff = (currentCi sendAfter1).stackidx) :=
  ⟨⟨rfl,
    ((send_stackidx_records_preshift sendProg sendInit sendAfter1 1 5 0 0).1 rfl).1,
    ((send_stackidx_records_preshift sendProg sendInit sendAfter1 1 5 0 0).1 rfl).2⟩,
   ⟨rfl, rfl,
    (send_stackidx_records_preshift sendProg sendAfter1 sendAfter2 1 5 0 0).2 rfl rfl⟩⟩

/-- The C3 program: the base procedure sends selector `5` (with `A = 1`) to
a callee whose body is a single self-referential `TAILCALL` of the same
selector; the callee procedure's `target_class` is 7. -/
def tailProg : Prog :=
  Prog.mk
    [Irep.mk [Instr.SEND 1 5 0, Instr.STOP] 3, Irep.mk [Instr.TAILCALL 1 5 0] 2]
    [RProcM.mk 0 0, RProcM.mk 1 7]
    (fun _ mid => if mid = 5 then some 1 else none)

/-- Fresh `mrb_run` entry for `tailProg`. -/
def tailInit : MState := mrb_run_init tailProg 0

/-- Claim C3, evaluated at the failing input: after the `SEND` the frame
stack is 2 deep and the base frame still carries `mid = 0`; the first
`TAILCALL` then executes `mrb->ci = &mrb->ci[-1]`, leaving the stack 1 deep
with the base frame's record overwritten by the callee's `mid`,
`target_class` and `argc`; the second iteration of the self-tailcall
decrements `mrb->ci` below `cibase` (undefined behaviour, stuck in the
model) — the depth is not preserved and no bounded 2-frame loop exists. -/
theorem tailcall_pops_caller_frame :
    ((runState tailProg 1 tailInit).getD mstate0).cis.length = 2
    ∧ (currentCi ((runState tailProg 1 tailInit).getD mstate0)).mid = 5
    ∧ (((runState tailProg 1 tailInit).getD mstate0).cis.getLast?.getD cidefault).mid = 0
    ∧ ((runState tailProg 2 tailInit).getD mstate0).cis.length = 1
    ∧ (runState tailProg 2 tailInit).isSome
    ∧ (currentCi ((runState tailProg 2 tailInit).getD mstate0)).mid = 5
    ∧ (currentCi ((runState tailProg 2 tailInit).getD mstate0)).target_class = 7
    ∧ runN tailProg 3 tailInit = StepRes.stuck :=
  ⟨rfl, rfl, rfl, rfl, rfl, rfl, rfl, rfl⟩

theorem setCurEidx_currentCi (s : MState) (v : Nat) (h : s.cis ≠ []) :
    currentCi (setCurEidx s v) = { currentCi s with eidx := v } := by
  obtain ⟨stb, off, cis, rs, es, exc, tr, ir, pcv, envs⟩ := s
  rcases cis with _ | ⟨ci, rest⟩
  · exact absurd rfl h
  · rfl

/-- Claim C5: `OP_EPOP A` invokes the `A` most recently registered ensure
procedures last-pushed-first — the `j`-th invocation (0-based) runs
`ensure[eidx-1-j]` — and lowers the frame's `eidx` watermark by `A`; the
ensure stack itself, the operand stack and the exception slot are
untouched. -/
theorem epop_runs_ensures_in_reverse (s : MState) (a : Nat)
    (hne : s.cis ≠ []) (hcnt : a ≤ (currentCi s).eidx) :
    (currentCi (op_epop s a)).eidx = (currentCi s).eidx - a
    ∧ (op_epop s a).etrace
        = s.etrace ++ (List.range a).map
            (fun j => s.ensureStk.getD ((currentCi s).eidx - 1 - j) 0)
    ∧ (op_epop s a).ensureStk = s.ensureStk
    ∧ (op_epop s a).stbase = s.stbase
    ∧ (op_epop s a).stackOff = s.stackOff
    ∧ (op_epop s a).exc = s.exc := by
  induction a generalizing s with
  | zero =>
      refine ⟨by simp [op_epop], ?_, rfl, rfl, rfl, rfl⟩
      simp [op_epop]
  | succ n ih =>
      obtain ⟨stb, off, cis, rs, es, exc, tr, ir, pcv, envs⟩ := s
      rcases cis with _ | ⟨ci, rest⟩
      · exact absurd rfl hne
      · have hstep :
            op_epop (MState.mk stb off (ci :: rest) rs es exc tr ir pcv envs) (n + 1)
              = op_epop
                  (MState.mk stb off ({ ci with eidx := ci.eidx - 1 } :: rest) rs es exc
                    (tr ++ [es.getD (ci.eidx - 1) 0]) ir pcv envs) n := rfl
        rw [hstep]
        have hcnt' :
            n ≤ (currentCi (MState.mk stb off ({ ci with eidx := ci.eidx - 1 } :: rest)
              rs es exc (tr ++ [es.getD (ci.eidx - 1) 0]) ir pcv envs)).eidx := by
          have : ci.eidx = (currentCi (MState.mk stb off (ci :: rest) rs es exc tr ir
            pcv envs)).eidx := rfl
          show n ≤ ci.eidx - 1
          omega
        have hne' :
            (MState.mk stb off ({ ci with eidx := ci.eidx - 1 } :: rest) rs es exc
              (tr ++ [es.getD (ci.eidx - 1) 0]) ir pcv envs).cis ≠ [] := by
          simp
        obtain ⟨ih1, ih2, ih3, ih4, ih5, ih6⟩ := ih _ hne' hcnt'
        refine ⟨?_, ?_, ih3, ih4, ih5, ih6⟩
        · rw [ih1]
          show ci.eidx - 1 - n = ci.eidx - (n + 1)
          omega
        · rw [ih2]
          show (tr ++ [es.getD (ci.eidx - 1) 0])
              ++ List.map (fun j => es.getD (ci.eidx - 1 - 1 - j) 0) (List.range n)
            = tr ++ List.map (fun j => es.getD (ci.eidx - 1 - j) 0) (List.range (n + 1))
          rw [List.append_assoc, List.range_succ_eq_map]
          simp only [List.map_cons, List.map_map, List.singleton_append, Nat.sub_zero]
          have hmap : List.map (fun j => es.getD (ci.eidx - 1 - 1 - j) 0) (List.range n)
              = List.map ((fun j => es.getD (ci.eidx - 1 - j) 0) ∘ Nat.succ)
                  (List.range n) := by
            refine List.map_congr_left ?_
            intro j _
            show es.getD (ci.eidx - 1 - 1 - j) 0 = es.getD (ci.eidx - 1 - (j + 1)) 0
            congr 1
            omega
          rw [hmap]

/-- The C5 scenario program `[EPUSH body1; EPUSH body2; EPOP 2; RETURN r0]`,
with `body1 = 10` and `body2 = 20` as ensure-procedure ids. -/
def ensureProg : Prog :=
  Prog.mk
    [Irep.mk [Instr.EPUSH 10, Instr.EPUSH 20, Instr.EPOP 2, Instr.RETURN 0] 2]
    [RProcM.mk 0 0] (fun _ _ => none)

/-- The machine state right after the two `EPUSH`es of the scenario. -/
def ensureW : MState := (runState ensureProg 2 (mrb_run_init ensureProg 0)).getD mstate0

/-- Witness for C5 at the scenario state: `EPOP 2` runs body2 (20) and then
body1 (10) and drops the watermark from 2 to 0. -/
theorem epop_runs_ensures_in_reverse_witness :
    (ensureW.cis ≠ [] ∧ 2 ≤ (currentCi ensureW).eidx)
    ∧ ((currentCi (op_epop ensureW 2)).eidx = 0
      ∧ (op_epop ensureW 2).etrace = [20, 10]) :=
  ⟨⟨by decide, by decide⟩,
   by
    have h := epop_runs_ensures_in_reverse ensureW 2 (by decide) (by decide)
    refine ⟨?_, ?_⟩
    · rw [h.1]
      decide
    · rw [h.2.1]
      decide⟩

end Mruby
